import Mathlib

/-!
Verification development for the `saturated` build server.

Each section shallowly embeds one source file of the repository:

* `src/unnamed/part_002` — `BuildQueue` / `CountedMutex` (the per-repository
  admission queue), embedded as an explicit step relation over a state that
  records, for every key, the per-key slot (`CountedMutex`) and, for every
  client, its program counter inside `Seize`/`Free`.
* `src/unnamed/part_001` — the logging writers (`PrefixLogger`,
  `LineFlushLogger`), embedded as pure functions over `List Char`.
* `src/task.go` — the build task state machine, embedded as a function from
  an environment of stage outcomes to the executed stage trace and result.
* `src/main.go` — the build-history ring (`container/ring` plus
  `saveNewBuild` / `handleListBuilds`) and the HTTP handler `handleBuild`
  over a model of `net/http`'s `ResponseWriter` status-commit semantics.
-/

namespace Saturated

/-! ### Admission queue (`src/unnamed/part_002`)

The Go code:

```go
type BuildQueue struct {
    *sync.Mutex
    clients map[string]*CountedMutex
}

type CountedMutex struct {
    sync.Mutex
    locked int64
}

func (mutex *CountedMutex) Lock() {
    atomic.AddInt64(&mutex.locked, +1)
    mutex.Mutex.Lock()
}

func (mutex *CountedMutex) Unlock() {
    mutex.Mutex.Unlock()
    atomic.AddInt64(&mutex.locked, -1)
}

func (queue *BuildQueue) Seize(id string) {
    queue.Lock()
    if queue.clients[id] == nil {
        queue.clients[id] = &CountedMutex{}
    }
    queue.Unlock()
    queue.clients[id].Lock()
}

func (queue *BuildQueue) Free(id string) {
    queue.Lock()
    mutex := queue.clients[id]
    defer queue.Unlock()
    if queue.clients[id].locked == 0 {
        delete(queue.clients, id)
    }
    mutex.Unlock()
}

func (queue *BuildQueue) GetSize(id string) int64 { ... }
```

We model a system of `n` concurrent callers.  Each caller has a program
counter recording where it stands inside `Seize`/`Free` for some key.
The observable atomic actions of the Go code become the constructors of a
step relation `QStep`:

* `seizeRegister` — the registry-locked block of `Seize` (create the slot
  if absent).  It is one atomic step because the whole block runs under
  the `BuildQueue` mutex.
* `seizeEnter` — the `atomic.AddInt64(&locked, +1)` at the top of
  `CountedMutex.Lock`.
* `seizeAcquire` — the `Mutex.Lock()` acquisition, enabled only when no
  holder exists (the semantics of `sync.Mutex`).
* `freeRelease` — the body of `Free` up to and including
  `mutex.Mutex.Unlock()`: the `locked == 0` check (which here does not
  fire) and the release of the mutex.  It runs under the registry lock.
* `freeDelete` — the same point of `Free` when the `locked == 0` check
  fires: the entry is deleted from the map and the caller's unlock then
  acts on the dangling, unreachable `CountedMutex` object, so the slot
  simply disappears.  (We prove this constructor is never enabled in a
  reachable state: the caller's own `+1` is still counted at the check.)
* `freeDecrement` — the trailing `atomic.AddInt64(&locked, -1)` of
  `CountedMutex.Unlock`.  It is a separate step from `freeRelease`
  because a waiter blocked in `Mutex.Lock` (which does not take the
  registry lock) may acquire the mutex between the unlock and the
  decrement.

Splitting Go's critical sections into these steps only adds interleavings
relative to the real program (the registry lock also excludes
`seizeRegister` between `freeRelease` and `freeDecrement`), so an
invariant proved for all `QStep`-reachable states holds for the program.
-/

/-- Program counter of one caller inside `Seize`/`Free` for key `k`:
`idle` — outside; `registered k` — after the registry-locked block of
`Seize`; `waiting k` — after the `locked` increment, blocked in (or about
to run) `Mutex.Lock`; `holding k` — returned from `Seize`, not yet in
`Free`; `freeing k` — inside `Free`, after `Mutex.Unlock`, before the
`locked` decrement. -/
inductive ClientState where
  | idle : ClientState
  | registered : String → ClientState
  | waiting : String → ClientState
  | holding : String → ClientState
  | freeing : String → ClientState
deriving DecidableEq

/-- One per-key slot: the `CountedMutex` of the Go code.  `locked` is the
`int64` counter; `holder` models which caller currently owns the embedded
`sync.Mutex` (`none` = unlocked). -/
structure CountedMutex (n : Nat) where
  locked : Int
  holder : Option (Fin n)
deriving DecidableEq

/-- Global state: the `clients` registry map plus every caller's program
counter. -/
structure BuildQueue (n : Nat) where
  clients : String → Option (CountedMutex n)
  pc : Fin n → ClientState

/-- Pointwise update of the registry map. -/
def updStr {n : Nat} (f : String → Option (CountedMutex n)) (k : String)
    (v : Option (CountedMutex n)) (k' : String) : Option (CountedMutex n) :=
  if k' = k then v else f k'

/-- Pointwise update of the program counters. -/
def updFin {n : Nat} (f : Fin n → ClientState) (c : Fin n) (v : ClientState)
    (c' : Fin n) : ClientState :=
  if c' = c then v else f c'

/-- `NewBuildQueue`: empty registry, all callers idle. -/
def NewBuildQueue (n : Nat) : BuildQueue n :=
  { clients := fun _ => none, pc := fun _ => ClientState.idle }

/-- `BuildQueue.GetSize`: `0` for an unknown key, else the slot's
`locked` counter. -/
def GetSize {n : Nat} (s : BuildQueue n) (k : String) : Int :=
  match s.clients k with
  | none => 0
  | some m => m.locked

/-- `BuildQueue.Free` begins with `queue.clients[id].locked`; when the map
has no entry for `id` this dereferences a nil `*CountedMutex` and panics.
This predicate holds exactly in that case. -/
def freeWouldPanic {n : Nat} (s : BuildQueue n) (k : String) : Bool :=
  (s.clients k).isNone

/-- The atomic steps of `Seize`/`Free`, as described in the section
comment. -/
inductive QStep {n : Nat} : BuildQueue n → BuildQueue n → Prop where
  | seizeRegister (s : BuildQueue n) (c : Fin n) (k : String)
      (hpc : s.pc c = ClientState.idle) :
      QStep s ⟨updStr s.clients k (some ((s.clients k).getD ⟨0, none⟩)),
               updFin s.pc c (ClientState.registered k)⟩
  | seizeEnter (s : BuildQueue n) (c : Fin n) (k : String) (m : CountedMutex n)
      (hpc : s.pc c = ClientState.registered k)
      (hcl : s.clients k = some m) :
      QStep s ⟨updStr s.clients k (some ⟨m.locked + 1, m.holder⟩),
               updFin s.pc c (ClientState.waiting k)⟩
  | seizeAcquire (s : BuildQueue n) (c : Fin n) (k : String) (m : CountedMutex n)
      (hpc : s.pc c = ClientState.waiting k)
      (hcl : s.clients k = some m)
      (hfree : m.holder = none) :
      QStep s ⟨updStr s.clients k (some ⟨m.locked, some c⟩),
               updFin s.pc c (ClientState.holding k)⟩
  | freeRelease (s : BuildQueue n) (c : Fin n) (k : String) (m : CountedMutex n)
      (hpc : s.pc c = ClientState.holding k)
      (hcl : s.clients k = some m)
      (hnz : m.locked ≠ 0) :
      QStep s ⟨updStr s.clients k (some ⟨m.locked, none⟩),
               updFin s.pc c (ClientState.freeing k)⟩
  | freeDelete (s : BuildQueue n) (c : Fin n) (k : String) (m : CountedMutex n)
      (hpc : s.pc c = ClientState.holding k)
      (hcl : s.clients k = some m)
      (hz : m.locked = 0) :
      QStep s ⟨updStr s.clients k none,
               updFin s.pc c ClientState.idle⟩
  | freeDecrement (s : BuildQueue n) (c : Fin n) (k : String) (m : CountedMutex n)
      (hpc : s.pc c = ClientState.freeing k)
      (hcl : s.clients k = some m) :
      QStep s ⟨updStr s.clients k (some ⟨m.locked - 1, m.holder⟩),
               updFin s.pc c ClientState.idle⟩

/-- Reachability from a state by interleaved `Seize`/`Free` steps. -/
def Reach {n : Nat} : BuildQueue n → BuildQueue n → Prop :=
  Relation.ReflTransGen QStep

/-- A caller in one of these states has an outstanding `+1` on the key's
`locked` counter. -/
def contrib (st : ClientState) (k : String) : Prop :=
  st = ClientState.waiting k ∨ st = ClientState.holding k ∨
    st = ClientState.freeing k

instance (st : ClientState) (k : String) : Decidable (contrib st k) := by
  unfold contrib; exact inferInstance

/-- A caller in one of these states is currently engaged with key `k`. -/
def onKey (st : ClientState) (k : String) : Prop :=
  st = ClientState.registered k ∨ contrib st k

/-- Number of callers with an outstanding `+1` on key `k`. -/
def lockCount {n : Nat} (pc : Fin n → ClientState) (k : String) : Nat :=
  (Finset.univ.filter fun c => contrib (pc c) k).card

/-- The reachability invariant: for each key, either no slot exists and no
caller is engaged with the key, or the slot's `locked` counter equals the
number of engaged callers and the mutex `holder` field is exactly the
caller (if any) whose program counter says `holding`. -/
def Inv {n : Nat} (s : BuildQueue n) : Prop :=
  ∀ k : String,
    ((s.clients k = none → ∀ c, ¬ onKey (s.pc c) k) ∧
     (∀ m, s.clients k = some m →
        m.locked = (lockCount s.pc k : Int) ∧
        (∀ c, s.pc c = ClientState.holding k → m.holder = some c) ∧
        (∀ c, m.holder = some c → s.pc c = ClientState.holding k)))

section CountLemmas

variable {n : Nat}

/-- The engaged-caller set after one program-counter update, expressed by
removing the updated caller and re-inserting it according to its new
state. -/
lemma filter_contrib_updFin (pc : Fin n → ClientState) (c : Fin n)
    (v : ClientState) (k : String) :
    (Finset.univ.filter fun c' => contrib (updFin pc c v c') k) =
      if contrib v k then
        insert c ((Finset.univ.filter fun c' => contrib (pc c') k).erase c)
      else
        (Finset.univ.filter fun c' => contrib (pc c') k).erase c := by
  ext c'
  by_cases hc : c' = c
  · subst hc
    by_cases hv : contrib v k <;>
      simp [updFin, hv, Finset.mem_insert, Finset.mem_erase]
  · by_cases hv : contrib v k <;>
      simp [updFin, hc, hv, Finset.mem_insert, Finset.mem_erase]

lemma lockCount_updFin_of_iff (pc : Fin n → ClientState) (c : Fin n)
    (v : ClientState) (k : String) (h : contrib v k ↔ contrib (pc c) k) :
    lockCount (updFin pc c v) k = lockCount pc k := by
  unfold lockCount
  rw [filter_contrib_updFin]
  by_cases hv : contrib v k
  · have hc : c ∈ (Finset.univ.filter fun c' => contrib (pc c') k) := by
      simp [h.mp hv]
    rw [if_pos hv, Finset.card_insert_of_not_mem (Finset.not_mem_erase c _),
      Finset.card_erase_of_mem hc]
    have : 1 ≤ (Finset.univ.filter fun c' => contrib (pc c') k).card :=
      Finset.card_pos.mpr ⟨c, hc⟩
    omega
  · have hc : c ∉ (Finset.univ.filter fun c' => contrib (pc c') k) := by
      simp only [Finset.mem_filter, Finset.mem_univ, true_and]
      exact fun hck => hv (h.mpr hck)
    rw [if_neg hv, Finset.erase_eq_of_not_mem hc]

lemma lockCount_updFin_incr (pc : Fin n → ClientState) (c : Fin n)
    (v : ClientState) (k : String) (hv : contrib v k)
    (hc : ¬ contrib (pc c) k) :
    lockCount (updFin pc c v) k = lockCount pc k + 1 := by
  unfold lockCount
  rw [filter_contrib_updFin, if_pos hv]
  have hcm : c ∉ (Finset.univ.filter fun c' => contrib (pc c') k) := by
    simp [hc]
  rw [Finset.erase_eq_of_not_mem hcm, Finset.card_insert_of_not_mem hcm]

lemma lockCount_updFin_decr (pc : Fin n → ClientState) (c : Fin n)
    (v : ClientState) (k : String) (hv : ¬ contrib v k)
    (hc : contrib (pc c) k) :
    lockCount (updFin pc c v) k + 1 = lockCount pc k := by
  unfold lockCount
  rw [filter_contrib_updFin, if_neg hv]
  have hcm : c ∈ (Finset.univ.filter fun c' => contrib (pc c') k) := by
    simp [hc]
  rw [Finset.card_erase_of_mem hcm]
  have : 1 ≤ (Finset.univ.filter fun c' => contrib (pc c') k).card :=
    Finset.card_pos.mpr ⟨c, hcm⟩
  omega

lemma lockCount_pos (pc : Fin n → ClientState) (c : Fin n) (k : String)
    (hc : contrib (pc c) k) : 1 ≤ lockCount pc k := by
  refine Finset.card_pos.mpr ⟨c, ?_⟩
  simp [hc]

lemma lockCount_eq_zero (pc : Fin n → ClientState) (k : String)
    (h : ∀ c, ¬ contrib (pc c) k) : lockCount pc k = 0 := by
  unfold lockCount
  rw [Finset.card_eq_zero, Finset.filter_eq_empty_iff]
  intro c _
  exact h c

end CountLemmas

section InvariantProof

variable {n : Nat}

@[simp] lemma clients_mk (cl : String → Option (CountedMutex n))
    (p : Fin n → ClientState) : (BuildQueue.mk cl p).clients = cl := rfl

@[simp] lemma pc_mk (cl : String → Option (CountedMutex n))
    (p : Fin n → ClientState) : (BuildQueue.mk cl p).pc = p := rfl

@[simp] lemma locked_mk (l : Int) (h : Option (Fin n)) :
    (CountedMutex.mk l h).locked = l := rfl

@[simp] lemma holder_mk (l : Int) (h : Option (Fin n)) :
    (CountedMutex.mk l h).holder = h := rfl

lemma updStr_self (f : String → Option (CountedMutex n)) (k : String)
    (v : Option (CountedMutex n)) : updStr f k v k = v := if_pos rfl

lemma updStr_ne (f : String → Option (CountedMutex n)) (k : String)
    (v : Option (CountedMutex n)) {k' : String} (h : k' ≠ k) :
    updStr f k v k' = f k' := if_neg h

lemma updFin_self (f : Fin n → ClientState) (c : Fin n) (v : ClientState) :
    updFin f c v c = v := if_pos rfl

lemma updFin_ne (f : Fin n → ClientState) (c : Fin n) (v : ClientState)
    {c' : Fin n} (h : c' ≠ c) : updFin f c v c' = f c' := if_neg h

@[simp] lemma contrib_idle (k : String) : ¬ contrib ClientState.idle k := by
  simp [contrib]

@[simp] lemma contrib_registered (k' k : String) :
    ¬ contrib (ClientState.registered k') k := by simp [contrib]

@[simp] lemma contrib_waiting (k' k : String) :
    contrib (ClientState.waiting k') k ↔ k' = k := by simp [contrib]

@[simp] lemma contrib_holding (k' k : String) :
    contrib (ClientState.holding k') k ↔ k' = k := by simp [contrib]

@[simp] lemma contrib_freeing (k' k : String) :
    contrib (ClientState.freeing k') k ↔ k' = k := by simp [contrib]

@[simp] lemma onKey_idle (k : String) : ¬ onKey ClientState.idle k := by
  simp [onKey]

@[simp] lemma onKey_registered (k' k : String) :
    onKey (ClientState.registered k') k ↔ k' = k := by simp [onKey]

@[simp] lemma onKey_waiting (k' k : String) :
    onKey (ClientState.waiting k') k ↔ k' = k := by simp [onKey]

@[simp] lemma onKey_holding (k' k : String) :
    onKey (ClientState.holding k') k ↔ k' = k := by simp [onKey]

@[simp] lemma onKey_freeing (k' k : String) :
    onKey (ClientState.freeing k') k ↔ k' = k := by simp [onKey]

/-- The initial queue satisfies the invariant. -/
lemma inv_init : Inv (NewBuildQueue n) := by
  intro k
  constructor
  · intro _ c
    simp [NewBuildQueue]
  · intro m hm
    simp [NewBuildQueue] at hm

/-- Transfer of the none-key invariant clause across a program-counter
update whose new state is not engaged with key `k`. -/
lemma none_clause_transfer (s : BuildQueue n) (c0 : Fin n) (w : ClientState)
    (k : String) (hw : ¬ onKey w k)
    (hprev : s.clients k = none → ∀ c, ¬ onKey (s.pc c) k)
    (hnone : s.clients k = none) :
    ∀ c, ¬ onKey (updFin s.pc c0 w c) k := by
  intro c
  by_cases hcc : c = c0
  · subst hcc
    rw [updFin_self]
    exact hw
  · rw [updFin_ne _ _ _ hcc]
    exact hprev hnone c

/-- Transfer of the per-slot invariant clauses across a program-counter
update that does not involve key `k`. -/
lemma slot_clauses_transfer (s : BuildQueue n) (c0 : Fin n) (w : ClientState)
    (k : String) (m : CountedMutex n)
    (h1 : ¬ contrib (s.pc c0) k) (h2 : ¬ contrib w k)
    (h1h : s.pc c0 ≠ ClientState.holding k) (h2h : w ≠ ClientState.holding k)
    (hold : m.locked = (lockCount s.pc k : Int) ∧
      (∀ c, s.pc c = ClientState.holding k → m.holder = some c) ∧
      (∀ c, m.holder = some c → s.pc c = ClientState.holding k)) :
    m.locked = (lockCount (updFin s.pc c0 w) k : Int) ∧
      (∀ c, updFin s.pc c0 w c = ClientState.holding k → m.holder = some c) ∧
      (∀ c, m.holder = some c → updFin s.pc c0 w c = ClientState.holding k) := by
  refine ⟨?_, ?_, ?_⟩
  · rw [lockCount_updFin_of_iff s.pc c0 w k (iff_of_false h2 h1)]
    exact hold.1
  · intro c hc
    by_cases hcc : c = c0
    · subst hcc
      rw [updFin_self] at hc
      exact absurd hc h2h
    · rw [updFin_ne _ _ _ hcc] at hc
      exact hold.2.1 c hc
  · intro c hc
    have hc' := hold.2.2 c hc
    by_cases hcc : c = c0
    · subst hcc
      exact absurd hc' h1h
    · rw [updFin_ne _ _ _ hcc]
      exact hc'

/-- One step preserves the invariant. -/
lemma inv_step {s s' : BuildQueue n} (hInv : Inv s) (hs : QStep s s') :
    Inv s' := by
  cases hs with
  | seizeRegister c0 k0 hpc =>
    intro k
    simp only [clients_mk, pc_mk]
    by_cases hk : k = k0
    · subst hk
      constructor
      · intro hnone
        rw [updStr_self] at hnone
        exact absurd hnone (by simp)
      · intro m hm
        rw [updStr_self, Option.some.injEq] at hm
        cases hcl : s.clients k with
        | none =>
          rw [hcl] at hm
          simp only [Option.getD_none] at hm
          subst hm
          have hfree : ∀ c, ¬ onKey (s.pc c) k := (hInv k).1 hcl
          refine ⟨?_, ?_, ?_⟩
          · rw [lockCount_updFin_of_iff s.pc c0 _ k
              (iff_of_false (by simp) (by simp [hpc]))]
            rw [lockCount_eq_zero s.pc k
              (fun c hc => hfree c (Or.inr hc))]
            simp
          · intro c hc
            by_cases hcc : c = c0
            · subst hcc
              rw [updFin_self] at hc
              simp at hc
            · rw [updFin_ne _ _ _ hcc] at hc
              refine absurd ?_ (hfree c)
              rw [hc]
              simp
          · intro c hc
            simp at hc
        | some m0 =>
          rw [hcl] at hm
          simp only [Option.getD_some] at hm
          subst hm
          exact slot_clauses_transfer s c0 _ k m0
            (by simp [hpc]) (by simp)
            (by simp [hpc]) (by simp) ((hInv k).2 m0 hcl)
    · constructor
      · intro hnone
        rw [updStr_ne _ _ _ hk] at hnone
        exact none_clause_transfer s c0 _ k
          (by simp [Ne.symm hk]) (hInv k).1 hnone
      · intro m hm
        rw [updStr_ne _ _ _ hk] at hm
        exact slot_clauses_transfer s c0 _ k m
          (by simp [hpc]) (by simp)
          (by simp [hpc]) (by simp) ((hInv k).2 m hm)
  | seizeEnter c0 k0 m0 hpc hcl =>
    intro k
    simp only [clients_mk, pc_mk]
    by_cases hk : k = k0
    · subst hk
      constructor
      · intro hnone
        rw [updStr_self] at hnone
        exact absurd hnone (by simp)
      · intro m hm
        rw [updStr_self, Option.some.injEq] at hm
        subst hm
        have hold := (hInv k).2 m0 hcl
        refine ⟨?_, ?_, ?_⟩
        · rw [lockCount_updFin_incr s.pc c0 _ k (by simp) (by simp [hpc])]
          simp only [locked_mk, Nat.cast_add, Nat.cast_one]
          rw [← hold.1]
        · intro c hc
          by_cases hcc : c = c0
          · subst hcc
            rw [updFin_self] at hc
            simp at hc
          · rw [updFin_ne _ _ _ hcc] at hc
            exact hold.2.1 c hc
        · intro c hc
          simp only [holder_mk] at hc
          have hc' := hold.2.2 c hc
          by_cases hcc : c = c0
          · subst hcc
            rw [hpc] at hc'
            simp at hc'
          · rw [updFin_ne _ _ _ hcc]
            exact hc'
    · constructor
      · intro hnone
        rw [updStr_ne _ _ _ hk] at hnone
        exact none_clause_transfer s c0 _ k
          (by simp [Ne.symm hk]) (hInv k).1 hnone
      · intro m hm
        rw [updStr_ne _ _ _ hk] at hm
        exact slot_clauses_transfer s c0 _ k m
          (by simp [hpc, Ne.symm hk])
          (by simp [Ne.symm hk])
          (by simp [hpc]) (by simp) ((hInv k).2 m hm)
  | seizeAcquire c0 k0 m0 hpc hcl hfree =>
    intro k
    simp only [clients_mk, pc_mk]
    by_cases hk : k = k0
    · subst hk
      constructor
      · intro hnone
        rw [updStr_self] at hnone
        exact absurd hnone (by simp)
      · intro m hm
        rw [updStr_self, Option.some.injEq] at hm
        subst hm
        have hold := (hInv k).2 m0 hcl
        refine ⟨?_, ?_, ?_⟩
        · rw [lockCount_updFin_of_iff s.pc c0 _ k
            (iff_of_true (by simp) (by simp [hpc]))]
          simp only [locked_mk]
          exact hold.1
        · intro c hc
          by_cases hcc : c = c0
          · subst hcc
            simp
          · rw [updFin_ne _ _ _ hcc] at hc
            have := hold.2.1 c hc
            rw [hfree] at this
            simp at this
        · intro c hc
          simp only [holder_mk, Option.some.injEq] at hc
          subst hc
          rw [updFin_self]
    · constructor
      · intro hnone
        rw [updStr_ne _ _ _ hk] at hnone
        exact none_clause_transfer s c0 _ k
          (by simp [Ne.symm hk]) (hInv k).1 hnone
      · intro m hm
        rw [updStr_ne _ _ _ hk] at hm
        exact slot_clauses_transfer s c0 _ k m
          (by simp [hpc, Ne.symm hk])
          (by simp [Ne.symm hk])
          (by simp [hpc, Ne.symm hk])
          (by simp [Ne.symm hk])
          ((hInv k).2 m hm)
  | freeRelease c0 k0 m0 hpc hcl hnz =>
    intro k
    simp only [clients_mk, pc_mk]
    by_cases hk : k = k0
    · subst hk
      constructor
      · intro hnone
        rw [updStr_self] at hnone
        exact absurd hnone (by simp)
      · intro m hm
        rw [updStr_self, Option.some.injEq] at hm
        subst hm
        have hold := (hInv k).2 m0 hcl
        refine ⟨?_, ?_, ?_⟩
        · rw [lockCount_updFin_of_iff s.pc c0 _ k
            (iff_of_true (by simp) (by simp [hpc]))]
          simp only [locked_mk]
          exact hold.1
        · intro c hc
          by_cases hcc : c = c0
          · subst hcc
            rw [updFin_self] at hc
            simp at hc
          · rw [updFin_ne _ _ _ hcc] at hc
            have h1 := hold.2.1 c hc
            have h2 := hold.2.1 c0 hpc
            rw [h1, Option.some.injEq] at h2
            exact absurd h2 hcc
        · intro c hc
          simp at hc
    · constructor
      · intro hnone
        rw [updStr_ne _ _ _ hk] at hnone
        exact none_clause_transfer s c0 _ k
          (by simp [Ne.symm hk]) (hInv k).1 hnone
      · intro m hm
        rw [updStr_ne _ _ _ hk] at hm
        exact slot_clauses_transfer s c0 _ k m
          (by simp [hpc, Ne.symm hk])
          (by simp [Ne.symm hk])
          (by simp [hpc, Ne.symm hk]) (by simp)
          ((hInv k).2 m hm)
  | freeDelete c0 k0 m0 hpc hcl hz =>
    exfalso
    have hold := (hInv k0).2 m0 hcl
    have hcontrib : contrib (s.pc c0) k0 := by simp [hpc]
    have hpos := lockCount_pos s.pc c0 k0 hcontrib
    rw [hold.1] at hz
    omega
  | freeDecrement c0 k0 m0 hpc hcl =>
    intro k
    simp only [clients_mk, pc_mk]
    by_cases hk : k = k0
    · subst hk
      constructor
      · intro hnone
        rw [updStr_self] at hnone
        exact absurd hnone (by simp)
      · intro m hm
        rw [updStr_self, Option.some.injEq] at hm
        subst hm
        have hold := (hInv k).2 m0 hcl
        refine ⟨?_, ?_, ?_⟩
        · have hdec := lockCount_updFin_decr s.pc c0 ClientState.idle k
            (by simp) (by simp [hpc])
          have hcast : ((lockCount (updFin s.pc c0 ClientState.idle) k : Nat) : Int) + 1 =
              ((lockCount s.pc k : Nat) : Int) := by
            exact_mod_cast congrArg (Nat.cast : Nat → Int) hdec
          rw [← hold.1] at hcast
          simp only [locked_mk]
          omega
        · intro c hc
          by_cases hcc : c = c0
          · subst hcc
            rw [updFin_self] at hc
            simp at hc
          · rw [updFin_ne _ _ _ hcc] at hc
            exact hold.2.1 c hc
        · intro c hc
          simp only [holder_mk] at hc
          have hc' := hold.2.2 c hc
          by_cases hcc : c = c0
          · subst hcc
            rw [hpc] at hc'
            simp at hc'
          · rw [updFin_ne _ _ _ hcc]
            exact hc'
    · constructor
      · intro hnone
        rw [updStr_ne _ _ _ hk] at hnone
        exact none_clause_transfer s c0 _ k (by simp) (hInv k).1 hnone
      · intro m hm
        rw [updStr_ne _ _ _ hk] at hm
        exact slot_clauses_transfer s c0 _ k m
          (by simp [hpc, Ne.symm hk])
          (by simp)
          (by simp [hpc, Ne.symm hk]) (by simp)
          ((hInv k).2 m hm)

/-- Every state reachable from the fresh queue satisfies the invariant. -/
lemma reach_inv {s : BuildQueue n} (h : Reach (NewBuildQueue n) s) : Inv s := by
  induction h with
  | refl => exact inv_init
  | tail _ hstep ih => exact inv_step ih hstep

end InvariantProof

section QueueTrace

/-! A concrete execution of one caller against key `"r"`:
register, enter, acquire (caller now holds), release, decrement.
Each `qexI` is the literal post-state of the corresponding `QStep`
constructor. -/

def qex0 : BuildQueue 1 := NewBuildQueue 1

def qex1 : BuildQueue 1 :=
  ⟨updStr qex0.clients "r" (some ((qex0.clients "r").getD ⟨0, none⟩)),
   updFin qex0.pc 0 (ClientState.registered "r")⟩

def qex2 : BuildQueue 1 :=
  ⟨updStr qex1.clients "r" (some ⟨1, none⟩),
   updFin qex1.pc 0 (ClientState.waiting "r")⟩

def qex3 : BuildQueue 1 :=
  ⟨updStr qex2.clients "r" (some ⟨1, some 0⟩),
   updFin qex2.pc 0 (ClientState.holding "r")⟩

def qex4 : BuildQueue 1 :=
  ⟨updStr qex3.clients "r" (some ⟨1, none⟩),
   updFin qex3.pc 0 (ClientState.freeing "r")⟩

def qex5 : BuildQueue 1 :=
  ⟨updStr qex4.clients "r" (some ⟨0, none⟩),
   updFin qex4.pc 0 ClientState.idle⟩

lemma step01 : QStep qex0 qex1 :=
  QStep.seizeRegister qex0 0 "r" rfl

lemma step12 : QStep qex1 qex2 :=
  QStep.seizeEnter qex1 0 "r" ⟨0, none⟩ (by decide) (by decide)

lemma step23 : QStep qex2 qex3 :=
  QStep.seizeAcquire qex2 0 "r" ⟨1, none⟩ (by decide) (by decide) rfl

lemma step34 : QStep qex3 qex4 :=
  QStep.freeRelease qex3 0 "r" ⟨1, some 0⟩ (by decide) (by decide) (by decide)

lemma step45 : QStep qex4 qex5 :=
  QStep.freeDecrement qex4 0 "r" ⟨1, none⟩ (by decide) (by decide)

lemma reach_qex3 : Reach (NewBuildQueue 1) qex3 :=
  Relation.ReflTransGen.head step01
    (Relation.ReflTransGen.head step12
      (Relation.ReflTransGen.head step23 Relation.ReflTransGen.refl))

lemma reach_qex5 : Reach (NewBuildQueue 1) qex5 :=
  Relation.ReflTransGen.head step01
    (Relation.ReflTransGen.head step12
      (Relation.ReflTransGen.head step23
        (Relation.ReflTransGen.head step34
          (Relation.ReflTransGen.head step45 Relation.ReflTransGen.refl))))

end QueueTrace

/-- C1: for every sequence of interleaved `Seize(k)`/`Free(k)` calls on a
`BuildQueue` (any number `n` of callers, any interleaving of the atomic
steps of `QStep`, starting from `NewBuildQueue`), at most one caller holds
key `k` — i.e. has returned from `Seize(k)` without yet calling `Free(k)`
— at any time: two callers whose program counters both say `holding k`
are equal.  The state "two holders of the same key" is unreachable. -/
theorem seize_mutual_exclusion {n : Nat} {s : BuildQueue n}
    (hreach : Reach (NewBuildQueue n) s) (k : String) (c1 c2 : Fin n)
    (h1 : s.pc c1 = ClientState.holding k)
    (h2 : s.pc c2 = ClientState.holding k) : c1 = c2 := by
  have hInv := reach_inv hreach
  cases hcl : s.clients k with
  | none =>
    refine absurd ?_ ((hInv k).1 hcl c1)
    rw [h1]
    simp
  | some m =>
    have ha := ((hInv k).2 m hcl).2.1 c1 h1
    have hb := ((hInv k).2 m hcl).2.1 c2 h2
    rw [ha, Option.some.injEq] at hb
    exact hb

/-- Witness for C1: in the concrete reachable state `qex3`, caller `0`
holds `"r"`, and the theorem applies. -/
theorem seize_mutual_exclusion_witness :
    (Reach (NewBuildQueue 1) qex3 ∧ qex3.pc 0 = ClientState.holding "r") ∧
      (0 : Fin 1) = 0 :=
  ⟨⟨reach_qex3, by decide⟩,
   seize_mutual_exclusion reach_qex3 "r" 0 0 (by decide) (by decide)⟩

/-- C2 (divergence evidence): after a complete `Seize("r")`/`Free("r")`
cycle of the only caller — last holder gone, no waiter left — the
registry still contains the slot for `"r"` (with `locked = 0`), because
`Free` tests `queue.clients[id].locked == 0` *before* the caller's own
`-1` lands, so the `delete` branch never fires; `GetSize` nonetheless
reports `0`.  The claim that the key's entry no longer exists is false on
the code. -/
theorem free_never_deletes_slot :
    Reach (NewBuildQueue 1) qex5 ∧
      qex5.pc 0 = ClientState.idle ∧
      qex5.clients "r" = some ⟨0, none⟩ ∧
      GetSize qex5 "r" = 0 :=
  ⟨reach_qex5, by decide, by decide, by decide⟩

/-- C9: `Free(id)` starts by reading `queue.clients[id].locked`; with no
slot in the registry this dereferences a nil `*CountedMutex` and panics
(`freeWouldPanic` is true on the fresh queue).  Under the precondition
that the caller performed a matching `Seize(id)` it has not yet freed —
i.e. its program counter says `holding id` — the nil case is unreachable
in every reachable state, so `Free` is safe. -/
theorem free_nil_panic_safety :
    freeWouldPanic (NewBuildQueue 1) "q" = true ∧
      (∀ (n : Nat) (s : BuildQueue n) (c : Fin n) (k : String),
        Reach (NewBuildQueue n) s → s.pc c = ClientState.holding k →
        freeWouldPanic s k = false) := by
  constructor
  · rfl
  · intro n s c k hreach hpc
    have hInv := reach_inv hreach
    cases hcl : s.clients k with
    | none =>
      refine absurd ?_ ((hInv k).1 hcl c)
      rw [hpc]
      simp
    | some m =>
      simp [freeWouldPanic, hcl]

/-- Witness for C9: caller `0` holds `"r"` in the reachable state `qex3`,
and there `Free` does not hit the nil slot. -/
theorem free_nil_panic_safety_witness : freeWouldPanic qex3 "r" = false :=
  free_nil_panic_safety.2 1 qex3 0 "r" reach_qex3 (by decide)

/-! ### Logging writers (`src/unnamed/part_001`)

The Go code of `PrefixLogger` (the per-line labelling writer):

```go
func (logger PrefixLogger) Write(data []byte) (int, error) {
    prefixedData := regexp.MustCompile(`(?m)^`).ReplaceAllLiteral(
        bytes.TrimRight(data, "\n"),
        []byte(logger.prefix),
    )
    _, err := logger.output.Write(prefixedData)
    if err != nil {
        return 0, err
    }
    return len(data), nil
}
```

`(?m)^` matches at offset 0 and immediately after every `'\n'`; since the
data has already been right-trimmed of newlines, no match sits at end of
text.  (The identifier `label` stands for the logger's prefix string.)

The Go code of `LineFlushLogger`:

```go
func (logger LineFlushLogger) Write(data []byte) (int, error) {
    _, err := logger.buffer.Write(data)
    ...
    err = logger.Flush()
    ...
    return len(data), nil
}

func (logger LineFlushLogger) Flush() error {
    logger.mutex.Lock()
    defer logger.mutex.Unlock()
    scanner := bufio.NewScanner(&logger.buffer)
    for scanner.Scan() {
        line := scanner.Bytes()
        _, err := logger.output.Write([]byte(string(line) + "\n"))
        ...
        logger.flusher.Flush()
    }
    return nil
}

func (logger LineFlushLogger) Close() error {
    return logger.Flush()
}
```

Two Go semantics points the embedding preserves:

* All the methods take the receiver *by value* (`logger LineFlushLogger`,
  with `buffer bytes.Buffer` a value field).  `logger.buffer.Write(data)`
  mutates a copy that is discarded when `Write` returns, so the buffer
  seen at the start of each `Write` call is always the (empty) buffer of
  the value stored at construction: nothing accumulates across calls.
  `lflWrite` therefore returns the logger unchanged.
* `bufio.Scanner` with the default `ScanLines` split function emits, at
  EOF, the final data *even when it is not newline-terminated* (after
  dropping a trailing `'\r'`), and emits nothing when the leftover is
  empty.  So a `Flush` drains the (copied) buffer completely, forwarding
  an unterminated trailing fragment as a line of its own.
-/

/-- `bytes.TrimRight(data, "\n")`: drop every trailing newline. -/
def trimTrailingNewlines (l : List Char) : List Char :=
  (l.reverse.dropWhile (fun c => c = '\n')).reverse

/-- Insert the label after every `'\n'` of the (already trimmed) data:
the replacement of each `(?m)^` match that follows a newline. -/
def labelAfterNewlines (p : List Char) : List Char → List Char
  | [] => []
  | c :: rest =>
    if c = '\n' then c :: (p ++ labelAfterNewlines p rest)
    else c :: labelAfterNewlines p rest

/-- `regexp.MustCompile((?m)^).ReplaceAllLiteral(bytes.TrimRight(data, "\n"),
label)`: the label lands at offset 0 and after every interior newline. -/
def labeledData (p data : List Char) : List Char :=
  p ++ labelAfterNewlines p (trimTrailingNewlines data)

/-- `PrefixLogger.Write` with label `p`: the pair of the bytes forwarded
to `logger.output` and the returned count `len(data)` (the downstream
write is assumed to succeed, as in the claims). -/
def plogWrite (p data : List Char) : List Char × Nat :=
  (labeledData p data, data.length)

/-- `dropCR` of `bufio.ScanLines`: strip one trailing carriage return. -/
def dropCR (l : List Char) : List Char :=
  if l.getLast? = some '\r' then l.dropLast else l

/-- Accumulator-based splitter equivalent to repeated `bufio.Scanner.Scan`
with `ScanLines`: `acc` is the reversed current fragment. -/
def scanLinesAux (acc : List Char) : List Char → List (List Char)
  | [] => if acc = [] then [] else [dropCR acc.reverse]
  | c :: rest =>
    if c = '\n' then dropCR acc.reverse :: scanLinesAux [] rest
    else scanLinesAux (c :: acc) rest

/-- All tokens produced by a `bufio.Scanner` with `ScanLines` over `data`:
one token per newline-terminated line, plus the unterminated trailing
fragment (if nonempty) as a final token at EOF. -/
def scanLines (data : List Char) : List (List Char) :=
  scanLinesAux [] data

/-- Observable downstream actions of `LineFlushLogger.Flush`: a write of
`line + "\n"` to `logger.output`, or a `flusher.Flush()`. -/
inductive LogEvent where
  | fwd : List Char → LogEvent
  | flush : LogEvent
deriving DecidableEq

/-- The persistent state of a `LineFlushLogger` value: its buffer. -/
structure LineFlushLogger where
  buffer : List Char
deriving DecidableEq

/-- `NewLineFlushLogger`: empty buffer. -/
def NewLineFlushLogger : LineFlushLogger :=
  { buffer := [] }

/-- Events emitted by one `Flush` over a buffer holding `l`. -/
def flushEvents (l : List Char) : List LogEvent :=
  (scanLines l).flatMap fun line => [LogEvent.fwd (line ++ ['\n']), LogEvent.flush]

/-- `LineFlushLogger.Write`: the copied receiver's buffer gains `data`,
`Flush` drains it completely (see the section comment on `ScanLines` at
EOF), and the copy is then discarded — the caller's logger value is
returned unchanged.  Result: (logger after the call, events emitted,
returned byte count). -/
def lflWrite (lg : LineFlushLogger) (data : List Char) :
    LineFlushLogger × List LogEvent × Nat :=
  (lg, flushEvents (lg.buffer ++ data), data.length)

/-- `LineFlushLogger.Close` = `Flush` on (a copy of) the receiver. -/
def lflClose (lg : LineFlushLogger) : LineFlushLogger × List LogEvent :=
  (lg, flushEvents lg.buffer)

/-- Run a sequence of `Write` calls from a fresh logger, collecting all
emitted events. -/
def lflRun (ws : List (List Char)) : LineFlushLogger × List LogEvent :=
  ws.foldl
    (fun st w =>
      let r := lflWrite st.1 w
      (r.1, st.2 ++ r.2.1))
    (NewLineFlushLogger, [])

/-- C3 (divergence evidence): writing `"a"`, then `"b\n"`, then `"c\n"`
forwards THREE lines — `"a\n"`, `"b\n"`, `"c\n"` — each immediately
followed by a transport flush; the unterminated fragment `"a"` is
forwarded at once rather than retained (the scanner emits the trailing
fragment at EOF and the value-receiver methods discard buffer state
between calls), and `Close` afterwards forwards nothing.  The claimed
event sequence (exactly `"ab\n"` then `"c\n"`) is not produced. -/
theorem lineflush_forwards_fragment_immediately :
    (lflRun ["a".toList, "b\n".toList, "c\n".toList]).2 =
      [LogEvent.fwd "a\n".toList, LogEvent.flush,
       LogEvent.fwd "b\n".toList, LogEvent.flush,
       LogEvent.fwd "c\n".toList, LogEvent.flush] ∧
    (lflClose (lflRun ["a".toList, "b\n".toList, "c\n".toList]).1).2 = [] ∧
    (lflRun ["a".toList, "b\n".toList, "c\n".toList]).2 ≠
      [LogEvent.fwd "ab\n".toList, LogEvent.flush,
       LogEvent.fwd "c\n".toList, LogEvent.flush] := by
  refine ⟨by decide, by decide, by decide⟩

/-- C4 counterexample: with label `"[x] "`, a single write of
`"line1\nline2\n"` does NOT forward `"[x] line1\n[x] line2\n"` — the
trailing newline of the input is trimmed before labelling, so the
forwarded bytes end at `"line2"`. -/
theorem plog_write_trailing_newline_cex :
    (plogWrite "[x] ".toList "line1\nline2\n".toList).1 ≠
      "[x] line1\n[x] line2\n".toList := by
  decide

/-- C4 (amended): with label `"[x] "`, a single write of
`"line1\nline2\n"` forwards exactly `"[x] line1\n[x] line2"` — every line
of the multi-line write receives the label, not only the first, and the
forwarded text is otherwise the input unchanged except that its trailing
newlines are stripped. -/
theorem plog_write_labels_every_line :
    (plogWrite "[x] ".toList "line1\nline2\n".toList).1 =
      "[x] line1\n[x] line2".toList := by
  decide

section TrailingNewline

lemma head?_dropWhile_newline (l : List Char) :
    (l.dropWhile (fun c => c = '\n')).head? ≠ some '\n' := by
  induction l with
  | nil => simp
  | cons c rest ih =>
    rw [List.dropWhile_cons]
    by_cases hc : c = '\n'
    · simpa [hc] using ih
    · simp [hc]

lemma trim_no_trailing_newline (l : List Char) :
    (trimTrailingNewlines l).getLast? ≠ some '\n' := by
  unfold trimTrailingNewlines
  rw [List.getLast?_reverse]
  exact head?_dropWhile_newline l.reverse

lemma labelAfterNewlines_ne_nil (p : List Char) {t : List Char}
    (h : t ≠ []) : labelAfterNewlines p t ≠ [] := by
  cases t with
  | nil => exact absurd rfl h
  | cons c rest =>
    by_cases hc : c = '\n' <;> simp [labelAfterNewlines, hc]

lemma getLast?_labelAfterNewlines (p : List Char) (t : List Char)
    (h : t.getLast? ≠ some '\n') :
    (labelAfterNewlines p t).getLast? = t.getLast? := by
  induction t with
  | nil => rfl
  | cons c rest ih =>
    cases rest with
    | nil =>
      have hc : ¬ (c = '\n') := by simpa using h
      simp [labelAfterNewlines, hc]
    | cons d rest2 =>
      have h' : (d :: rest2).getLast? ≠ some '\n' := by
        simpa using h
      have hL : labelAfterNewlines p (d :: rest2) ≠ [] :=
        labelAfterNewlines_ne_nil p (by simp)
      obtain ⟨y, ys, hys⟩ := List.exists_cons_of_ne_nil hL
      by_cases hc : c = '\n'
      · obtain ⟨z, zs, hzs⟩ := List.exists_cons_of_ne_nil
          (show p ++ labelAfterNewlines p (d :: rest2) ≠ [] by
            simp [List.append_eq_nil, hL])
        calc (labelAfterNewlines p (c :: d :: rest2)).getLast?
            = (c :: (p ++ labelAfterNewlines p (d :: rest2))).getLast? := by
              simp [labelAfterNewlines, hc]
          _ = (p ++ labelAfterNewlines p (d :: rest2)).getLast? := by
              rw [hzs]; rfl
          _ = (labelAfterNewlines p (d :: rest2)).getLast? :=
              List.getLast?_append_of_ne_nil _ hL
          _ = (d :: rest2).getLast? := ih h'
          _ = (c :: d :: rest2).getLast? := rfl
      · calc (labelAfterNewlines p (c :: d :: rest2)).getLast?
            = (c :: labelAfterNewlines p (d :: rest2)).getLast? := by
              simp [labelAfterNewlines, hc]
          _ = (labelAfterNewlines p (d :: rest2)).getLast? := by
              rw [hys]; rfl
          _ = (d :: rest2).getLast? := ih h'
          _ = (c :: d :: rest2).getLast? := rfl

end TrailingNewline

/-- C10: `PrefixLogger.Write` removes all trailing newline characters from
the written data before inserting the label at each line start and
forwarding; consequently — for any label that does not itself end in a
newline, which holds for every label the program constructs — the bytes
forwarded downstream by a single `Write` never end with `'\n'`, while the
call still reports the full original input length as consumed. -/
theorem plog_write_strips_trailing_newlines (p data : List Char)
    (hp : p.getLast? ≠ some '\n') :
    (plogWrite p data).1 =
        p ++ labelAfterNewlines p (trimTrailingNewlines data) ∧
      (plogWrite p data).1.getLast? ≠ some '\n' ∧
      (plogWrite p data).2 = data.length := by
  refine ⟨rfl, ?_, rfl⟩
  show (labeledData p data).getLast? ≠ some '\n'
  unfold labeledData
  cases ht : trimTrailingNewlines data with
  | nil =>
    simpa [labelAfterNewlines] using hp
  | cons c rest =>
    have hne : labelAfterNewlines p (c :: rest) ≠ [] :=
      labelAfterNewlines_ne_nil p (by simp)
    rw [List.getLast?_append_of_ne_nil _ hne,
      getLast?_labelAfterNewlines p (c :: rest)
        (ht ▸ trim_no_trailing_newline data)]
    exact ht ▸ trim_no_trailing_newline data

/-- Witness for C10: label `"[x] "` and input `"abc\n"`. -/
theorem plog_write_strips_trailing_newlines_witness :
    "[x] ".toList.getLast? ≠ some '\n' ∧
      ((plogWrite "[x] ".toList "abc\n".toList).1 =
          "[x] ".toList ++
            labelAfterNewlines "[x] ".toList
              (trimTrailingNewlines "abc\n".toList) ∧
        (plogWrite "[x] ".toList "abc\n".toList).1.getLast? ≠ some '\n' ∧
        (plogWrite "[x] ".toList "abc\n".toList).2 =
          "abc\n".toList.length) :=
  ⟨by decide,
   plog_write_strips_trailing_newlines "[x] ".toList "abc\n".toList
     (by decide)⟩

/-! ### Build task (`src/task.go`)

```go
func (task *Task) updateMirror(repoURL, repoPath string) error {
    err := task.clone(repoURL, repoPath)
    if err != nil {
        if _, ok := err.(RepoExistError); !ok {
            return err
        }
    }
    err = task.fetch(repoPath)
    if err != nil {
        return err
    }
    return nil
}

func (task *Task) run(
    repoPath, branchName, buildCommand, installCommand string,
    environ []string,
) error {
    defer task.cleanWorkDir()
    err := task.createWorkDir(repoPath)
    if err != nil {
        return err
    }
    err = task.checkoutBranch(branchName)
    if err != nil {
        return fmt.Errorf("cant checkout branch ...", branchName, err)
    }
    err = task.buildPackage(buildCommand, environ)
    if err != nil {
        return fmt.Errorf("cant build package ...", err)
    }
    if installCommand != "" {
        err = task.installPackage(installCommand)
        if err != nil {
            return err
        }
    }
    return nil
}

func (task *Task) clone(repoURL, repoPath string) error {
    if _, err := os.Stat(filepath.Join(repoPath, "HEAD")); err == nil {
        return RepoExistError{}
    }
    return runCommandWithLog(exec.Command("git", "clone", "--mirror", ...), ...)
}
```

The external process invocations (`runCommandWithLog` on git / shell
commands) and the `os.Stat` probe are the out-of-scope collaborators; the
embedding takes their outcomes as an environment and computes the stage
trace and the returned error.  Error wrapping with `fmt.Errorf` stage
context is modelled by error constructors carrying the stage and the
underlying message. -/

/-- The observable actions of `Task.run` (each runs one external command)
plus the deferred cleanup. -/
inductive Stage where
  | createWorkDir : Stage
  | checkoutBranch : Stage
  | buildPackage : Stage
  | installPackage : Stage
  | cleanWorkDir : Stage
deriving DecidableEq

/-- Error values of a `Task.run`: either a raw command error (createWorkDir
and installPackage propagate the error unwrapped) or one wrapped with
stage context by `fmt.Errorf`. -/
inductive TaskError where
  | raw : Stage → String → TaskError
  | checkoutWrapped : String → String → TaskError
  | buildWrapped : String → TaskError
deriving DecidableEq

/-- Outcomes of the external commands `Task.run` may invoke: `none` means
exit status 0. -/
structure RunEnv where
  createErr : Option String
  checkoutErr : Option String
  buildErr : Option String
  installErr : Option String
deriving DecidableEq

/-- `Task.run`: the sequence of executed stages and the returned error.
The `defer task.cleanWorkDir()` at the top of the function appends the
cleanup stage on every exit path. -/
def taskRun (installCommand branchName : String) (env : RunEnv) :
    List Stage × Option TaskError :=
  let body : List Stage × Option TaskError :=
    match env.createErr with
    | some e => ([Stage.createWorkDir], some (TaskError.raw Stage.createWorkDir e))
    | none =>
      match env.checkoutErr with
      | some e =>
        ([Stage.createWorkDir, Stage.checkoutBranch],
         some (TaskError.checkoutWrapped branchName e))
      | none =>
        match env.buildErr with
        | some e =>
          ([Stage.createWorkDir, Stage.checkoutBranch, Stage.buildPackage],
           some (TaskError.buildWrapped e))
        | none =>
          if installCommand = "" then
            ([Stage.createWorkDir, Stage.checkoutBranch, Stage.buildPackage],
             none)
          else
            match env.installErr with
            | some e =>
              ([Stage.createWorkDir, Stage.checkoutBranch, Stage.buildPackage,
                Stage.installPackage],
               some (TaskError.raw Stage.installPackage e))
            | none =>
              ([Stage.createWorkDir, Stage.checkoutBranch, Stage.buildPackage,
                Stage.installPackage],
               none)
  (body.1 ++ [Stage.cleanWorkDir], body.2)

/-- C5: on every run of `Task.run`, if the build-command stage returns an
error then the install stage is never executed, and the task-scoped
working directory is removed (`cleanWorkDir` runs) on every exit path —
whatever the outcomes of checkout, build and install, and whatever the
configured install command. -/
theorem task_run_build_failure_skips_install
    (installCommand branchName : String) (env : RunEnv) :
    ((env.buildErr).isSome →
      Stage.installPackage ∉ (taskRun installCommand branchName env).1) ∧
      Stage.cleanWorkDir ∈ (taskRun installCommand branchName env).1 := by
  obtain ⟨ce, ke, be, ie⟩ := env
  constructor
  · intro hb
    cases ce <;> cases ke <;> cases be <;> cases ie <;>
      simp_all [taskRun]
  · cases ce <;> cases ke <;> cases be <;> cases ie <;>
      simp [taskRun]

/-- Witness for C5: a run whose build command fails. -/
theorem task_run_build_failure_skips_install_witness :
    ((some "exit status 2" : Option String).isSome →
      Stage.installPackage ∉
        (taskRun "install" "pkgbuild" ⟨none, none, some "exit status 2", none⟩).1) ∧
      Stage.cleanWorkDir ∈
        (taskRun "install" "pkgbuild" ⟨none, none, some "exit status 2", none⟩).1 :=
  task_run_build_failure_skips_install "install" "pkgbuild"
    ⟨none, none, some "exit status 2", none⟩

/-- The two git commands `updateMirror` can spawn. -/
inductive GitCmd where
  | cloneMirror : GitCmd
  | fetchAll : GitCmd
deriving DecidableEq

/-- Errors visible to `updateMirror`'s caller: the sentinel
`RepoExistError` returned by `clone` when `repoPath/HEAD` exists, or a
failure of one of the spawned git commands. -/
inductive MirrorError where
  | repoExist : MirrorError
  | cmdFailed : GitCmd → String → MirrorError
deriving DecidableEq

/-- Environment of one `updateMirror` call: whether `os.Stat` finds
`HEAD` at the mirror path, and the outcomes of the two git commands. -/
structure MirrorEnv where
  headExists : Bool
  cloneErr : Option String
  fetchErr : Option String
deriving DecidableEq

/-- `Task.clone`: `RepoExistError` without spawning anything when `HEAD`
exists, else run `git clone --mirror`. -/
def taskClone (env : MirrorEnv) : List GitCmd × Option MirrorError :=
  if env.headExists then ([], some MirrorError.repoExist)
  else
    match env.cloneErr with
    | some e => ([GitCmd.cloneMirror], some (MirrorError.cmdFailed GitCmd.cloneMirror e))
    | none => ([GitCmd.cloneMirror], none)

/-- `Task.updateMirror`: clone, absorb `RepoExistError`, abort on any
other clone error, then fetch. -/
def updateMirror (env : MirrorEnv) : List GitCmd × Option MirrorError :=
  let cl := taskClone env
  let proceed : Bool :=
    match cl.2 with
    | some e => e = MirrorError.repoExist
    | none => true
  if proceed then
    match env.fetchErr with
    | some e =>
      (cl.1 ++ [GitCmd.fetchAll], some (MirrorError.cmdFailed GitCmd.fetchAll e))
    | none => (cl.1 ++ [GitCmd.fetchAll], none)
  else
    (cl.1, cl.2)

/-- C6: `updateMirror` performs clone followed by fetch when no `HEAD`
file exists at the mirror path (and the clone succeeds), performs fetch
only — the clone command is never spawned — when `HEAD` exists, never
returns the absorbed `RepoExistError`, and returns an error exactly when
the clone of a fresh mirror fails or the fetch fails. -/
theorem update_mirror_clone_fetch (env : MirrorEnv) :
    (env.headExists = false → env.cloneErr = none →
      (updateMirror env).1 = [GitCmd.cloneMirror, GitCmd.fetchAll]) ∧
      (env.headExists = true → (updateMirror env).1 = [GitCmd.fetchAll]) ∧
      (updateMirror env).2 ≠ some MirrorError.repoExist ∧
      ((updateMirror env).2 = none ↔
        ((env.headExists = true ∨ env.cloneErr = none) ∧
          env.fetchErr = none)) := by
  obtain ⟨he, ce, fe⟩ := env
  cases he <;> cases ce <;> cases fe <;>
    simp [updateMirror, taskClone]

/-- Witness for C6: fresh mirror (no `HEAD`), both commands succeed. -/
theorem update_mirror_clone_fetch_witness :
    (updateMirror ⟨false, none, none⟩).1 =
        [GitCmd.cloneMirror, GitCmd.fetchAll] ∧
      (updateMirror ⟨false, none, none⟩).2 = none :=
  ⟨(update_mirror_clone_fetch ⟨false, none, none⟩).1 rfl rfl,
   ((update_mirror_clone_fetch ⟨false, none, none⟩).2.2.2).mpr
     ⟨Or.inr rfl, rfl⟩⟩

/-! ### Build history ring (`src/main.go`)

```go
handler.lastBuild = ring.New(maxBuildCount)

func (handler *BuildHandler) saveNewBuild(repoName string) BuildInfo {
    info := BuildInfo{ ..., pointer: handler.lastBuild }
    handler.lastBuild.Value = info
    handler.lastBuild = handler.lastBuild.Prev()
    return info
}

func (handler BuildHandler) handleListBuilds(...) {
    ...
    handler.lastBuild.Next().Do(func(val interface{}) {
        if val == nil {
            return
        }
        buildInfo := val.(BuildInfo)
        fmt.Fprintf(writer, ...)
    })
}
```

A `container/ring` of `n` cells is embedded as a list of `n` optional
records plus the index of the current element; `Prev` is `-1 mod n`,
`Next` is `+1 mod n`, and `Do` visits all `n` cells forward from the
receiver.  Records are abstracted to their identity (the `BuildInfo`
contents play no role in retention/eviction/order). -/

/-- A `container/ring` of `Option α` cells with the handler's current
position. -/
structure BuildRing (α : Type) where
  cells : List (Option α)
  pos : Nat
deriving DecidableEq

/-- `ring.New(n)`: `n` empty cells, position 0. -/
def ringNew (α : Type) (n : Nat) : BuildRing α :=
  { cells := List.replicate n none, pos := 0 }

/-- `saveNewBuild`: store the record at the current cell, then move the
handler's pointer to `Prev` (backwards, for most-recent-first listing). -/
def saveNewBuild {α : Type} (rg : BuildRing α) (r : α) : BuildRing α :=
  { cells := rg.cells.set rg.pos (some r),
    pos := (rg.pos + (rg.cells.length - 1)) % rg.cells.length }

/-- `handleListBuilds`: visit all cells forward starting at
`lastBuild.Next()`, rendering each non-nil record. -/
def listBuilds {α : Type} (rg : BuildRing α) : List α :=
  (List.range rg.cells.length).filterMap
    fun i => rg.cells.getD ((rg.pos + 1 + i) % rg.cells.length) none

/-- Records `r1..r5` inserted into a capacity-3 history. -/
def historyAfterFive : BuildRing Nat :=
  saveNewBuild
    (saveNewBuild
      (saveNewBuild (saveNewBuild (saveNewBuild (ringNew Nat 3) 1) 2) 3) 4) 5

/-- C7: the build-history store retains at most `N` records where `N` is
the capacity fixed at startup (`saveNewBuild` never changes the cell
count, and a listing never renders more than `N` records); inserting an
`(N+1)`-th record overwrites the oldest retained one: after inserting
`r1..r5` into a capacity-3 store, the listing renders exactly `r5, r4,
r3` (most-recent-first, the store's defined order) — `r1` and `r2` are
evicted. -/
theorem build_history_capacity_and_eviction :
    (∀ (rg : BuildRing Nat) (r : Nat),
        (saveNewBuild rg r).cells.length = rg.cells.length) ∧
      (∀ rg : BuildRing Nat, (listBuilds rg).length ≤ rg.cells.length) ∧
      listBuilds historyAfterFive = [5, 4, 3] ∧
      1 ∉ listBuilds historyAfterFive ∧
      2 ∉ listBuilds historyAfterFive := by
  refine ⟨?_, ?_, by decide, by decide, by decide⟩
  · intro rg r
    simp [saveNewBuild]
  · intro rg
    calc (listBuilds rg).length
        ≤ (List.range rg.cells.length).length :=
          List.length_filterMap_le _ _
      _ = rg.cells.length := List.length_range _

/-! ### Build-trigger handler (`src/main.go`, `handleBuild`)

```go
func (handler *BuildHandler) handleBuild(response, request) {
    repoUrl := strings.TrimPrefix(request.URL.Path, "/v1/build/")
    if repoUrl == "" {
        response.WriteHeader(http.StatusBadRequest)
        io.WriteString(response, "error: <repo-url> required ...")
        return
    }
    logger := PrefixLogger{ output: NewLineFlushLogger(..., io.MultiWriter(..., response)) }
    topLevelLogger := logger.WithPrefix("* ")
    queueSize := handler.queue.GetSize(repoUrl)
    if queueSize > 0 {
        fmt.Fprintf(topLevelLogger, "you are %d in the build queue", queueSize)
    }
    handler.queue.Seize(repoUrl)
    defer handler.queue.Free(repoUrl)
    fmt.Fprintf(topLevelLogger, "running build task for ...", repoUrl)
    err := request.ParseForm()
    if err != nil {
        response.WriteHeader(http.StatusBadRequest)
        fmt.Fprintf(topLevelLogger, "error parsing request: %s", err)
        return
    }
    ...
    err = rawSetuid(handler.buildUid)
    if err != nil {
        response.WriteHeader(http.StatusInternalServerError)
        ...
        return
    }
    buildInfo := handler.saveNewBuild(repoUrl)
    err = runBuild(...)
    ...
    if err != nil {
        fmt.Fprintf(topLevelLogger, "error during build: %s", err)
        buildInfo.status = "error"
        ...
    } else {
        fmt.Fprintf(topLevelLogger, "build completed")
        ...
    }
    buildInfo.Save()
}
```

`net/http` semantics of the response writer: the status line is sent by
the first `WriteHeader` or (implicitly, as 200) by the first `Write`;
any later `WriteHeader` is ignored.  Every `fmt.Fprintf` to
`topLevelLogger` reaches `response.Write` through the
`PrefixLogger`/`LineFlushLogger`/`MultiWriter` pipeline as at least one
nonempty line (the messages contain no newline, so by the embeddings
above the pipeline forwards exactly one labelled, newline-terminated
line per message).  `Response.body` records which handler message each
write carried. -/

/-- The handler messages that reach `response.Write`. -/
inductive BodyMsg where
  | urlRequired : BodyMsg
  | queuePosition : Int → BodyMsg
  | runningBuildTask : String → BodyMsg
  | parseFormError : String → BodyMsg
  | setuidError : String → BodyMsg
  | buildError : String → BodyMsg
  | buildCompleted : BodyMsg
deriving DecidableEq

/-- `net/http` response state: the committed status (sent with the first
write or explicit header) and the body writes so far. -/
structure Response where
  committed : Option Nat
  body : List BodyMsg
deriving DecidableEq

/-- `response.Write` (via the log pipeline): commits status 200 if none
committed yet. -/
def respWrite (r : Response) (m : BodyMsg) : Response :=
  { committed := some (r.committed.getD 200), body := r.body ++ [m] }

/-- `response.WriteHeader(code)`: sets the status only if nothing is
committed yet; otherwise it is a superfluous call and is ignored. -/
def respWriteHeader (r : Response) (code : Nat) : Response :=
  match r.committed with
  | some _ => r
  | none => { r with committed := some code }

/-- The status the client actually receives: the committed one, or 200 if
the handler returned without writing anything. -/
def wireStatus (r : Response) : Nat :=
  r.committed.getD 200

/-- Per-request environment of `handleBuild`: the URL suffix after
`/v1/build/`, the admission-queue size at entry, and the outcomes of
`request.ParseForm`, `rawSetuid` and `runBuild`. -/
structure BuildReq where
  repoUrl : String
  queueSize : Int
  parseFormErr : Option String
  setuidErr : Option String
  buildErr : Option String
deriving DecidableEq

/-- `handleBuild`, following the source order of response writes and
header calls. -/
def handleBuild (req : BuildReq) : Response :=
  let r0 : Response := ⟨none, []⟩
  if req.repoUrl = "" then
    respWrite (respWriteHeader r0 400) BodyMsg.urlRequired
  else
    let r1 :=
      if req.queueSize > 0 then
        respWrite r0 (BodyMsg.queuePosition req.queueSize)
      else r0
    let r2 := respWrite r1 (BodyMsg.runningBuildTask req.repoUrl)
    match req.parseFormErr with
    | some e => respWrite (respWriteHeader r2 400) (BodyMsg.parseFormError e)
    | none =>
      match req.setuidErr with
      | some e => respWrite (respWriteHeader r2 500) (BodyMsg.setuidError e)
      | none =>
        match req.buildErr with
        | some e => respWrite r2 (BodyMsg.buildError e)
        | none => respWrite r2 BodyMsg.buildCompleted

/-- C8 counterexample: a well-formed request whose build fails
(`runBuild` returns an error) is answered with wire status 200, not a
non-200 status — the handler has already streamed "running build task
for ..." before `runBuild`, committing the 200 status line, and the
source contains no `WriteHeader` call in the build-failure branch
anyway. -/
theorem handle_build_failure_status_cex :
    (⟨"git://host/repo.git", 0, none, none,
        some "exit status 1"⟩ : BuildReq).buildErr.isSome = true ∧
      wireStatus
        (handleBuild
          ⟨"git://host/repo.git", 0, none, none, some "exit status 1"⟩) =
        200 := by
  refine ⟨rfl, by decide⟩

/-- C8 (amended): the response carries status 400 when the request is
malformed (empty repository URL after the `/v1/build/` prefix) — the only
path where `WriteHeader` precedes any body write — and status 200 in
every other case: on build success, but also on build failure, form-parse
failure and setuid failure, because the streamed log output has already
committed the 200 status before those outcomes are known. -/
theorem handle_build_wire_status (req : BuildReq) :
    (req.repoUrl = "" → wireStatus (handleBuild req) = 400) ∧
      (req.repoUrl ≠ "" → wireStatus (handleBuild req) = 200) := by
  obtain ⟨u, q, pe, se, be⟩ := req
  constructor
  · intro h
    simp only at h
    simp [handleBuild, h, respWrite, respWriteHeader, wireStatus]
  · intro h
    simp only at h
    by_cases hq : q > 0 <;> cases pe <;> cases se <;> cases be <;>
      simp [handleBuild, h, hq, respWrite, respWriteHeader, wireStatus]

/-- Witness for C8 (amended): empty URL gives 400; a successful build on
a well-formed request gives 200. -/
theorem handle_build_wire_status_witness :
    wireStatus (handleBuild ⟨"", 0, none, none, none⟩) = 400 ∧
      wireStatus
        (handleBuild ⟨"git://host/repo.git", 0, none, none, none⟩) = 200 :=
  ⟨(handle_build_wire_status ⟨"", 0, none, none, none⟩).1 rfl,
   (handle_build_wire_status ⟨"git://host/repo.git", 0, none, none, none⟩).2
     (by decide)⟩

end Saturated
